import Mathlib

/-!
Image format metadata: `image/imageFormat.inl`.

A shallow embedding of the inline helpers of `imageFormat.inl`
(`imageFormatToStr`, `imageFormatFromStr`, `imageFormatChannels`,
`imageFormatDepth`, `imageFormatSize`, `imageFormatFromType`) and the properties
established about them.

Conventions of the embedding:

* a value of `enum imageFormat` is the natural number held by its underlying
  integer representation;
* the enumerators (`FORMAT_RGB8`, ..., `FORMAT_COUNT`, `FORMAT_UNKNOWN`,
  `FORMAT_YUY2`) are declared in `imageFormat.h`, which is not among the
  sources embedded here, so their numeric values are a parameter `E : Enumerators`;
* a `const char*` is `Option CStr`: `none` is the null pointer, `some s` points
  to the bytes `s` followed by the terminating NUL;
* `size_t` is 64 bits wide and its arithmetic wraps modulo `2 ^ 64`.
-/

namespace ImageFormat

/-! ## C strings and `<strings.h>` -/

/-- Contents of a C string: the bytes that precede the terminating NUL. -/
abbrev CStr := List Nat

/-- A string literal of the program text, as C string contents.  Every literal of
`imageFormat.inl` is plain ASCII, so its bytes are its code points. -/
def lit (s : String) : CStr := s.toList.map Char.toNat

/-- The function `tolower` of `<ctype.h>` in the POSIX locale: only `A`..`Z` change. -/
def tolower (c : Nat) : Nat := if 65 ≤ c ∧ c ≤ 90 then c + 32 else c

/-- The function `strcasecmp` of `<strings.h>` in the POSIX locale: both strings are
compared byte by byte after `tolower`.  POSIX fixes only the sign of the result
(the code only tests it against `0`), so the result is `-1`, `0` or `1`. -/
def strcasecmp : CStr → CStr → Int
  | [], [] => 0
  | [], _ :: _ => -1
  | _ :: _, [] => 1
  | a :: s1, b :: s2 =>
    if tolower a < tolower b then -1
    else if tolower b < tolower a then 1
    else strcasecmp s1 s2

/-! ## The enumeration -/

/-- A value of `enum imageFormat`, as held by its underlying integer representation. -/
abbrev imageFormat := Nat

/-- Numeric values of the enumerators of `enum imageFormat` used by `imageFormat.inl`.
The declaration itself (`imageFormat.h`) is outside the sources, hence a parameter. -/
structure Enumerators where
  FORMAT_RGB8 : imageFormat
  FORMAT_RGBA8 : imageFormat
  FORMAT_RGB32 : imageFormat
  FORMAT_RGBA32 : imageFormat
  FORMAT_I420 : imageFormat
  FORMAT_YV12 : imageFormat
  FORMAT_NV12 : imageFormat
  FORMAT_UYVY : imageFormat
  FORMAT_YUYV : imageFormat
  FORMAT_GRAY8 : imageFormat
  FORMAT_GRAY32 : imageFormat
  FORMAT_COUNT : Nat
  FORMAT_UNKNOWN : imageFormat
  FORMAT_YUY2 : imageFormat

/-- The 11 canonical formats, in enumeration order. -/
def Enumerators.canonical (E : Enumerators) : List imageFormat :=
  [E.FORMAT_RGB8, E.FORMAT_RGBA8, E.FORMAT_RGB32, E.FORMAT_RGBA32, E.FORMAT_I420,
   E.FORMAT_YV12, E.FORMAT_NV12, E.FORMAT_UYVY, E.FORMAT_YUYV, E.FORMAT_GRAY8,
   E.FORMAT_GRAY32]

/-- What the code and the spec fix about the enumeration declaration.

* `labels_distinct`: the twelve `case` labels of the `switch` in `imageFormatToStr`
  are pairwise different values (C++ rejects a `switch` with a repeated label);
* `scanned`: the scan `for( n=0; n < FORMAT_COUNT; n++ )` of `imageFormatFromStr`
  reaches every canonical format ("iterate every declared format value");
* `declared`: every value the scan visits is a declared format;
* `alias_known`: the legacy alias `FORMAT_YUY2` denotes a format, not `FORMAT_UNKNOWN`. -/
structure Enumerators.WellFormed (E : Enumerators) : Prop where
  labels_distinct : (E.canonical ++ [E.FORMAT_UNKNOWN]).Nodup
  scanned : ∀ F ∈ E.canonical, F < E.FORMAT_COUNT
  declared : ∀ n, n < E.FORMAT_COUNT → n ∈ E.canonical ∨ n = E.FORMAT_UNKNOWN
  alias_known : E.FORMAT_YUY2 ≠ E.FORMAT_UNKNOWN

/-- Modelled from the spec: the declaration of `enum imageFormat` (`imageFormat.h`) is
missing from the sources.  The formats are numbered from `0` in the spec's enumeration
order (RGB8, RGBA8, RGB32, RGBA32, I420, YV12, NV12, UYVY, YUYV, GRAY8, GRAY32),
`FORMAT_COUNT` is the number of canonical formats, `FORMAT_UNKNOWN` lies outside the
scanned range and the legacy alias `FORMAT_YUY2` stands for `FORMAT_YUYV`. -/
def specEnum : Enumerators where
  FORMAT_RGB8 := 0
  FORMAT_RGBA8 := 1
  FORMAT_RGB32 := 2
  FORMAT_RGBA32 := 3
  FORMAT_I420 := 4
  FORMAT_YV12 := 5
  FORMAT_NV12 := 6
  FORMAT_UYVY := 7
  FORMAT_YUYV := 8
  FORMAT_GRAY8 := 9
  FORMAT_GRAY32 := 10
  FORMAT_COUNT := 11
  FORMAT_UNKNOWN := 999
  FORMAT_YUY2 := 8

/-! ## `imageFormatToStr` and `imageFormatFromStr` -/

/-- The function `imageFormatToStr`: the `switch` over the twelve labels, tried in
the order written, followed by the `return "unknown"` after the `switch`. -/
def imageFormatToStr (E : Enumerators) (format : imageFormat) : CStr :=
  if format = E.FORMAT_RGB8 then lit "rgb8"
  else if format = E.FORMAT_RGBA8 then lit "rgba8"
  else if format = E.FORMAT_RGB32 then lit "rgb32"
  else if format = E.FORMAT_RGBA32 then lit "rgba32"
  else if format = E.FORMAT_I420 then lit "i420"
  else if format = E.FORMAT_YV12 then lit "yv12"
  else if format = E.FORMAT_NV12 then lit "nv12"
  else if format = E.FORMAT_UYVY then lit "uyvy"
  else if format = E.FORMAT_YUYV then lit "yuyv"
  else if format = E.FORMAT_GRAY8 then lit "gray8"
  else if format = E.FORMAT_GRAY32 then lit "gray32"
  else if format = E.FORMAT_UNKNOWN then lit "unknown"
  else lit "unknown"

/-- The `for` loop of `imageFormatFromStr`: `scan E str k n` runs the `k` iterations
that remain when the counter is `n`, and yields the format returned from inside the
loop, or `none` when the loop falls through.  The counter never wraps:
`FORMAT_COUNT` is a value of the 32-bit underlying type. -/
def imageFormatFromStr.scan (E : Enumerators) (str : CStr) : Nat → Nat → Option imageFormat
  | 0, _ => none
  | k + 1, n =>
    if strcasecmp str (imageFormatToStr E n) = 0 then some n
    else imageFormatFromStr.scan E str k (n + 1)

/-- The function `imageFormatFromStr`. -/
def imageFormatFromStr (E : Enumerators) : Option CStr → imageFormat
  | none => E.FORMAT_UNKNOWN
  | some str =>
    match imageFormatFromStr.scan E str E.FORMAT_COUNT 0 with
    | some fmt => fmt
    | none =>
      if strcasecmp str (lit "yuy2") = 0 then E.FORMAT_YUY2
      else E.FORMAT_UNKNOWN

/-! ## Channels, depth and size -/

/-- Size in bytes of CUDA's `uchar3` (three `unsigned char`, no padding). -/
def sizeof_uchar3 : Nat := 3

/-- Size in bytes of CUDA's `uchar4`. -/
def sizeof_uchar4 : Nat := 4

/-- Size in bytes of CUDA's `float3`. -/
def sizeof_float3 : Nat := 12

/-- Size in bytes of CUDA's `float4`. -/
def sizeof_float4 : Nat := 16

/-- Size in bytes of `unsigned char`. -/
def sizeof_uchar : Nat := 1

/-- Size in bytes of `float`. -/
def sizeof_float : Nat := 4

/-- Number of values of `size_t`: `2 ^ 64`. -/
def SIZE_T_RANGE : Nat := 2 ^ 64

/-- Reduction of an arithmetic result into `size_t`. -/
def toSizeT (x : Nat) : Nat := x % SIZE_T_RANGE

/-- The function `imageFormatChannels`: the `switch` in the order written, then
`return 0`. -/
def imageFormatChannels (E : Enumerators) (format : imageFormat) : Nat :=
  if format = E.FORMAT_RGB8 then 3
  else if format = E.FORMAT_RGBA8 then 4
  else if format = E.FORMAT_RGB32 then 3
  else if format = E.FORMAT_RGBA32 then 4
  else if format = E.FORMAT_GRAY8 then 1
  else if format = E.FORMAT_GRAY32 then 1
  else if format = E.FORMAT_I420 then 3
  else if format = E.FORMAT_YV12 then 3
  else if format = E.FORMAT_NV12 then 3
  else if format = E.FORMAT_UYVY then 3
  else if format = E.FORMAT_YUYV then 3
  else 0

/-- The function `imageFormatDepth`: the `switch` in the order written, then
`return 0`. -/
def imageFormatDepth (E : Enumerators) (format : imageFormat) : Nat :=
  if format = E.FORMAT_RGB8 then sizeof_uchar3 * 8
  else if format = E.FORMAT_RGBA8 then sizeof_uchar4 * 8
  else if format = E.FORMAT_RGB32 then sizeof_float3 * 8
  else if format = E.FORMAT_RGBA32 then sizeof_float4 * 8
  else if format = E.FORMAT_GRAY8 then sizeof_uchar * 8
  else if format = E.FORMAT_GRAY32 then sizeof_float * 8
  else if format = E.FORMAT_I420 then 12
  else if format = E.FORMAT_YV12 then 12
  else if format = E.FORMAT_NV12 then 12
  else if format = E.FORMAT_UYVY then 16
  else if format = E.FORMAT_YUYV then 16
  else 0

/-- The function `imageFormatSize`: `(width * height * imageFormatDepth(format)) / 8`
evaluated left to right in `size_t`, each product wrapping modulo `2 ^ 64`. -/
def imageFormatSize (E : Enumerators) (format : imageFormat) (width height : Nat) : Nat :=
  toSizeT (toSizeT (width * height) * imageFormatDepth E format) / 8

/-! ## Notions used to state the properties -/

/-- Two strings are equal up to the case of their ASCII letters. -/
def CaseInsensitiveEq (s t : CStr) : Prop := s.map tolower = t.map tolower

instance (s t : CStr) : Decidable (CaseInsensitiveEq s t) :=
  inferInstanceAs (Decidable (s.map tolower = t.map tolower))

/-- The byte `c` with its case changed when it is an ASCII letter, and `c` otherwise. -/
def flipCase (c : Nat) : Nat :=
  if 65 ≤ c ∧ c ≤ 90 then c + 32
  else if 97 ≤ c ∧ c ≤ 122 then c - 32
  else c

/-- The string `t` is obtained from `s` by changing the case of some of its ASCII
letters: same length, and each byte is kept or replaced by its other-case form. -/
def CaseVariant (s t : CStr) : Prop := List.Forall₂ (fun a b => b = a ∨ b = flipCase a) s t

/-- The canonical names of the 11 canonical formats, in enumeration order. -/
def canonicalNames : List CStr :=
  [lit "rgb8", lit "rgba8", lit "rgb32", lit "rgba32", lit "i420", lit "yv12",
   lit "nv12", lit "uyvy", lit "yuyv", lit "gray8", lit "gray32"]

/-- The 12 names `imageFormatFromStr` accepts: the canonical names and `"yuy2"`. -/
def acceptedNames : List CStr := canonicalNames ++ [lit "yuy2"]

/-- The 12 strings `imageFormatToStr` can return. -/
def emittedNames : List CStr := canonicalNames ++ [lit "unknown"]

/-- The canonical formats paired with their canonical names. -/
def Enumerators.table (E : Enumerators) : List (imageFormat × CStr) :=
  E.canonical.zip canonicalNames

/-- The formats of 4:2:0 planar YUV layout, whose nominal depth is 12 bits. -/
def Enumerators.planar420 (E : Enumerators) : List imageFormat :=
  [E.FORMAT_I420, E.FORMAT_YV12, E.FORMAT_NV12]

/-- The formats of 4:2:2 packed YUV layout, whose nominal depth is 16 bits. -/
def Enumerators.packed422 (E : Enumerators) : List imageFormat :=
  [E.FORMAT_UYVY, E.FORMAT_YUYV]

/-- The fixed table the spec describes as an alternative to the linear scan: each of the
11 canonical names with its format, and `"yuy2"` with `FORMAT_YUY2`. -/
def Enumerators.nameTable (E : Enumerators) : List (CStr × imageFormat) :=
  [(lit "rgb8", E.FORMAT_RGB8), (lit "rgba8", E.FORMAT_RGBA8), (lit "rgb32", E.FORMAT_RGB32),
   (lit "rgba32", E.FORMAT_RGBA32), (lit "i420", E.FORMAT_I420), (lit "yv12", E.FORMAT_YV12),
   (lit "nv12", E.FORMAT_NV12), (lit "uyvy", E.FORMAT_UYVY), (lit "yuyv", E.FORMAT_YUYV),
   (lit "gray8", E.FORMAT_GRAY8), (lit "gray32", E.FORMAT_GRAY32),
   (lit "yuy2", E.FORMAT_YUY2)]

/-- The direct lookup of the spec: the entry of the fixed table keyed by the
ASCII-lowercased string, and `FORMAT_UNKNOWN` when the table has no such key.  This
definition follows the spec, not the code; it is what `imageFormatFromStr` is compared
with. -/
def tableLookup (E : Enumerators) (s : CStr) : imageFormat :=
  (E.nameTable.lookup (s.map tolower)).getD E.FORMAT_UNKNOWN

/-! ## `imageFormatFromType` -/

/-- The type arguments for which `imageFormatFromType<T>` has a specialisation.  The
primary template consists of a `static_assert` that always fails, so an instantiation
with any other type does not build: these four are the whole domain of the function. -/
inductive SampleType where
  | uchar3
  | uchar4
  | float3
  | float4
  deriving DecidableEq

/-- The function `imageFormatFromType<T>`: its four specialisations. -/
def imageFormatFromType (E : Enumerators) : SampleType → imageFormat
  | .uchar3 => E.FORMAT_RGB8
  | .uchar4 => E.FORMAT_RGBA8
  | .float3 => E.FORMAT_RGB32
  | .float4 => E.FORMAT_RGBA32

/-- The value of `sizeof(T)` for a sample type. -/
def SampleType.sizeofSample : SampleType → Nat
  | .uchar3 => sizeof_uchar3
  | .uchar4 => sizeof_uchar4
  | .float3 => sizeof_float3
  | .float4 => sizeof_float4

/-- The number of components (`x`, `y`, `z`, and `w` when present) of a sample type. -/
def SampleType.components : SampleType → Nat
  | .uchar3 => 3
  | .uchar4 => 4
  | .float3 => 3
  | .float4 => 4

/-! ## Basic facts -/

theorem specEnum_wellFormed : specEnum.WellFormed :=
  ⟨by decide, by decide, by decide, by decide⟩

/-- The comparison `strcasecmp(s, t) == 0` succeeds exactly on strings equal up to case. -/
theorem strcasecmp_eq_zero_iff (s t : CStr) : strcasecmp s t = 0 ↔ CaseInsensitiveEq s t := by
  induction s generalizing t with
  | nil => cases t <;> simp [strcasecmp, CaseInsensitiveEq]
  | cons a s ih =>
    cases t with
    | nil => simp [strcasecmp, CaseInsensitiveEq]
    | cons b t =>
      unfold strcasecmp
      by_cases h1 : tolower a < tolower b
      · simp only [h1, if_true]
        simp [CaseInsensitiveEq]
        omega
      · by_cases h2 : tolower b < tolower a
        · simp only [h1, h2, if_true, if_false]
          simp [CaseInsensitiveEq]
          omega
        · have hab : tolower a = tolower b := by omega
          simp only [h1, h2, if_false, ih]
          simp [CaseInsensitiveEq, hab]

/-- Case variants are equal up to case. -/
theorem CaseVariant.caseInsensitiveEq {s t : CStr} (h : CaseVariant s t) :
    CaseInsensitiveEq s t := by
  unfold CaseInsensitiveEq
  induction h with
  | nil => rfl
  | @cons a b _ _ hab _ ih =>
    have : tolower a = tolower b := by
      rcases hab with rfl | rfl
      · rfl
      · unfold flipCase tolower
        split_ifs <;> omega
    simp [this, ih]

/-- The names `imageFormatToStr` can return and `"yuy2"` are pairwise different up to case. -/
theorem names_distinct :
    ∀ a ∈ emittedNames ++ [lit "yuy2"], ∀ b ∈ emittedNames ++ [lit "yuy2"],
      CaseInsensitiveEq a b → a = b := by
  decide

/-- Case analysis on `imageFormatToStr E v`: the value is one of the canonical formats
and the result its name, or it is none of them and the result is `"unknown"`. -/
theorem imageFormatToStr_cases (E : Enumerators) (v : imageFormat) (P : CStr → Prop)
    (h1 : v = E.FORMAT_RGB8 → P (lit "rgb8"))
    (h2 : v = E.FORMAT_RGBA8 → P (lit "rgba8"))
    (h3 : v = E.FORMAT_RGB32 → P (lit "rgb32"))
    (h4 : v = E.FORMAT_RGBA32 → P (lit "rgba32"))
    (h5 : v = E.FORMAT_I420 → P (lit "i420"))
    (h6 : v = E.FORMAT_YV12 → P (lit "yv12"))
    (h7 : v = E.FORMAT_NV12 → P (lit "nv12"))
    (h8 : v = E.FORMAT_UYVY → P (lit "uyvy"))
    (h9 : v = E.FORMAT_YUYV → P (lit "yuyv"))
    (h10 : v = E.FORMAT_GRAY8 → P (lit "gray8"))
    (h11 : v = E.FORMAT_GRAY32 → P (lit "gray32"))
    (h12 : v ∉ E.canonical → P (lit "unknown")) :
    P (imageFormatToStr E v) := by
  unfold imageFormatToStr
  by_cases c1 : v = E.FORMAT_RGB8
  · rw [if_pos c1]; exact h1 c1
  rw [if_neg c1]
  by_cases c2 : v = E.FORMAT_RGBA8
  · rw [if_pos c2]; exact h2 c2
  rw [if_neg c2]
  by_cases c3 : v = E.FORMAT_RGB32
  · rw [if_pos c3]; exact h3 c3
  rw [if_neg c3]
  by_cases c4 : v = E.FORMAT_RGBA32
  · rw [if_pos c4]; exact h4 c4
  rw [if_neg c4]
  by_cases c5 : v = E.FORMAT_I420
  · rw [if_pos c5]; exact h5 c5
  rw [if_neg c5]
  by_cases c6 : v = E.FORMAT_YV12
  · rw [if_pos c6]; exact h6 c6
  rw [if_neg c6]
  by_cases c7 : v = E.FORMAT_NV12
  · rw [if_pos c7]; exact h7 c7
  rw [if_neg c7]
  by_cases c8 : v = E.FORMAT_UYVY
  · rw [if_pos c8]; exact h8 c8
  rw [if_neg c8]
  by_cases c9 : v = E.FORMAT_YUYV
  · rw [if_pos c9]; exact h9 c9
  rw [if_neg c9]
  by_cases c10 : v = E.FORMAT_GRAY8
  · rw [if_pos c10]; exact h10 c10
  rw [if_neg c10]
  by_cases c11 : v = E.FORMAT_GRAY32
  · rw [if_pos c11]; exact h11 c11
  rw [if_neg c11]
  rw [ite_self]
  apply h12
  intro hmem
  simp only [Enumerators.canonical, List.mem_cons, List.mem_singleton, List.not_mem_nil,
    or_false] at hmem
  rcases hmem with h | h | h | h | h | h | h | h | h | h | h <;> contradiction

/-- Every result of `imageFormatToStr` is one of the twelve emitted names. -/
theorem imageFormatToStr_mem (E : Enumerators) (v : imageFormat) :
    imageFormatToStr E v ∈ emittedNames := by
  apply imageFormatToStr_cases E v (fun x => x ∈ emittedNames) <;> intro _ <;> decide

/-- Outside the canonical formats `imageFormatToStr` answers `"unknown"`. -/
theorem imageFormatToStr_of_not_mem (E : Enumerators) (v : imageFormat)
    (hv : v ∉ E.canonical) : imageFormatToStr E v = lit "unknown" := by
  simp only [Enumerators.canonical, List.mem_cons, List.mem_singleton, List.not_mem_nil,
    or_false, not_or] at hv
  simp [imageFormatToStr, hv]

/-- The labels of the `switch` are pairwise different, in both directions. -/
theorem labels_ne {E : Enumerators} (hE : E.WellFormed) :
    (E.canonical ++ [E.FORMAT_UNKNOWN]).Pairwise (fun a b => a ≠ b ∧ b ≠ a) := by
  have h := hE.labels_distinct
  unfold List.Nodup at h
  exact h.imp (fun h1 => ⟨h1, fun h2 => h1 h2.symm⟩)

/-- The name of each declared format. -/
theorem imageFormatToStr_declared {E : Enumerators} (hE : E.WellFormed) :
    imageFormatToStr E E.FORMAT_RGB8 = lit "rgb8" ∧
    imageFormatToStr E E.FORMAT_RGBA8 = lit "rgba8" ∧
    imageFormatToStr E E.FORMAT_RGB32 = lit "rgb32" ∧
    imageFormatToStr E E.FORMAT_RGBA32 = lit "rgba32" ∧
    imageFormatToStr E E.FORMAT_I420 = lit "i420" ∧
    imageFormatToStr E E.FORMAT_YV12 = lit "yv12" ∧
    imageFormatToStr E E.FORMAT_NV12 = lit "nv12" ∧
    imageFormatToStr E E.FORMAT_UYVY = lit "uyvy" ∧
    imageFormatToStr E E.FORMAT_YUYV = lit "yuyv" ∧
    imageFormatToStr E E.FORMAT_GRAY8 = lit "gray8" ∧
    imageFormatToStr E E.FORMAT_GRAY32 = lit "gray32" ∧
    imageFormatToStr E E.FORMAT_UNKNOWN = lit "unknown" := by
  have h := labels_ne hE
  simp only [Enumerators.canonical, List.cons_append, List.nil_append, List.pairwise_cons,
    List.mem_cons, List.mem_singleton, forall_eq_or_imp, forall_eq] at h
  simp only [imageFormatToStr]
  simp [h]

/-- A canonical format is listed in the table with the name `imageFormatToStr` gives it. -/
theorem imageFormatToStr_table {E : Enumerators} (hE : E.WellFormed) (F : imageFormat)
    (hF : F ∈ E.canonical) : (F, imageFormatToStr E F) ∈ E.table := by
  have h := imageFormatToStr_declared hE
  simp only [Enumerators.canonical, List.mem_cons, List.mem_singleton, List.not_mem_nil,
    or_false] at hF
  rcases hF with r | r | r | r | r | r | r | r | r | r | r <;> subst r <;>
    simp [h, Enumerators.table, Enumerators.canonical, canonicalNames]

/-- A result of `imageFormatToStr` other than `"unknown"` comes from the table. -/
theorem table_of_imageFormatToStr (E : Enumerators) (v : imageFormat)
    (hv : imageFormatToStr E v ≠ lit "unknown") : (v, imageFormatToStr E v) ∈ E.table := by
  revert hv
  apply imageFormatToStr_cases E v (fun x => x ≠ lit "unknown" → (v, x) ∈ E.table)
  all_goals intro h hx
  all_goals first
    | exact absurd rfl hx
    | (subst h; simp [Enumerators.table, Enumerators.canonical, canonicalNames])

/-- In a pairing of two lists, an entry of the second list without repetition
determines its partner. -/
theorem zip_fst_unique {α β : Type} {a b : α} {c : β} :
    ∀ (l1 : List α) (l2 : List β), l2.Nodup → (a, c) ∈ l1.zip l2 → (b, c) ∈ l1.zip l2 → a = b
  | [], _, _, h, _ => by simp at h
  | _ :: _, [], _, h, _ => by simp at h
  | x :: l1, y :: l2, hn, ha, hb => by
    rw [List.zip_cons_cons, List.mem_cons] at ha hb
    rw [List.nodup_cons] at hn
    rcases ha with ha | ha <;> rcases hb with hb | hb
    · rw [Prod.mk.injEq] at ha hb
      rw [ha.1, hb.1]
    · rw [Prod.mk.injEq] at ha
      exact absurd (ha.2 ▸ (List.of_mem_zip hb).2) hn.1
    · rw [Prod.mk.injEq] at hb
      exact absurd (hb.2 ▸ (List.of_mem_zip ha).2) hn.1
    · exact zip_fst_unique l1 l2 hn.2 ha hb

/-- A canonical format is the only value with its name. -/
theorem imageFormatToStr_inj {E : Enumerators} (hE : E.WellFormed) (F v : imageFormat)
    (hF : F ∈ E.canonical) (h : imageFormatToStr E v = imageFormatToStr E F) : v = F := by
  have hFt := imageFormatToStr_table hE F hF
  have hFn : imageFormatToStr E F ∈ canonicalNames := (List.of_mem_zip hFt).2
  have hne : imageFormatToStr E v ≠ lit "unknown" := by
    rw [h]
    intro hu
    rw [hu] at hFn
    exact absurd hFn (by decide)
  have hvt := table_of_imageFormatToStr E v hne
  rw [h] at hvt
  exact zip_fst_unique _ _ (by decide) hvt hFt

/-! ## The scan of `imageFormatFromStr` -/

/-- A value returned from inside the loop was visited, matches `str`, and is the first
such value. -/
theorem scan_eq_some {E : Enumerators} {str : CStr} (k : Nat) :
    ∀ (n m : Nat), imageFormatFromStr.scan E str k n = some m →
      n ≤ m ∧ m < n + k ∧ strcasecmp str (imageFormatToStr E m) = 0 ∧
        ∀ j, n ≤ j → j < m → strcasecmp str (imageFormatToStr E j) ≠ 0 := by
  induction k with
  | zero =>
    intro n m h
    simp [imageFormatFromStr.scan] at h
  | succ k ih =>
    intro n m h
    unfold imageFormatFromStr.scan at h
    by_cases c : strcasecmp str (imageFormatToStr E n) = 0
    · rw [if_pos c] at h
      have e : n = m := Option.some.inj h
      subst e
      exact ⟨le_refl _, by omega, c, fun j h1 h2 => absurd h1 (by omega)⟩
    · rw [if_neg c] at h
      obtain ⟨h1, h2, h3, h4⟩ := ih (n + 1) m h
      refine ⟨by omega, by omega, h3, fun j hj1 hj2 => ?_⟩
      rcases Nat.eq_or_lt_of_le hj1 with e | l
      · exact e ▸ c
      · exact h4 j l hj2

/-- When the loop falls through, no visited value matches `str`. -/
theorem scan_eq_none {E : Enumerators} {str : CStr} (k : Nat) :
    ∀ (n : Nat), imageFormatFromStr.scan E str k n = none →
      ∀ j, n ≤ j → j < n + k → strcasecmp str (imageFormatToStr E j) ≠ 0 := by
  induction k with
  | zero =>
    intro n _ j h1 h2
    omega
  | succ k ih =>
    intro n h j hj1 hj2
    unfold imageFormatFromStr.scan at h
    by_cases c : strcasecmp str (imageFormatToStr E n) = 0
    · rw [if_pos c] at h
      exact absurd h (by simp)
    · rw [if_neg c] at h
      rcases Nat.eq_or_lt_of_le hj1 with e | l
      · exact e ▸ c
      · exact ih (n + 1) h j l (by omega)

/-- The body of `imageFormatFromStr` on a non-null pointer, by the outcome of the loop. -/
theorem imageFormatFromStr_some (E : Enumerators) (s : CStr) :
    imageFormatFromStr E (some s) =
      (imageFormatFromStr.scan E s E.FORMAT_COUNT 0).getD
        (if strcasecmp s (lit "yuy2") = 0 then E.FORMAT_YUY2 else E.FORMAT_UNKNOWN) := by
  simp only [imageFormatFromStr]
  cases imageFormatFromStr.scan E s E.FORMAT_COUNT 0 <;> rfl

/-- A string equal up to case to the name of a canonical format decodes to that format. -/
theorem imageFormatFromStr_of_name {E : Enumerators} (hE : E.WellFormed) (F : imageFormat)
    (hF : F ∈ E.canonical) (s : CStr) (hs : CaseInsensitiveEq s (imageFormatToStr E F)) :
    imageFormatFromStr E (some s) = F := by
  rw [imageFormatFromStr_some]
  cases hscan : imageFormatFromStr.scan E s E.FORMAT_COUNT 0 with
  | none =>
    have := scan_eq_none _ _ hscan F (Nat.zero_le _) (by simpa using hE.scanned F hF)
    exact absurd ((strcasecmp_eq_zero_iff _ _).2 hs) this
  | some m =>
    obtain ⟨-, -, hm, -⟩ := scan_eq_some _ _ _ hscan
    have hm2 : CaseInsensitiveEq s (imageFormatToStr E m) := (strcasecmp_eq_zero_iff _ _).1 hm
    have hci : CaseInsensitiveEq (imageFormatToStr E m) (imageFormatToStr E F) :=
      Eq.trans (Eq.symm hm2) hs
    have hmem : ∀ v, imageFormatToStr E v ∈ emittedNames ++ [lit "yuy2"] := fun v =>
      List.mem_append_left _ (imageFormatToStr_mem E v)
    exact imageFormatToStr_inj hE F m hF (names_distinct _ (hmem m) _ (hmem F) hci)

/-- A string equal up to case to `"yuy2"` decodes to the alias `FORMAT_YUY2`. -/
theorem imageFormatFromStr_of_yuy2 (E : Enumerators) (s : CStr)
    (hs : CaseInsensitiveEq s (lit "yuy2")) : imageFormatFromStr E (some s) = E.FORMAT_YUY2 := by
  rw [imageFormatFromStr_some]
  cases hscan : imageFormatFromStr.scan E s E.FORMAT_COUNT 0 with
  | none =>
    rw [if_pos ((strcasecmp_eq_zero_iff _ _).2 hs)]
    rfl
  | some m =>
    obtain ⟨-, -, hm, -⟩ := scan_eq_some _ _ _ hscan
    have hm2 : CaseInsensitiveEq s (imageFormatToStr E m) := (strcasecmp_eq_zero_iff _ _).1 hm
    have hci : CaseInsensitiveEq (imageFormatToStr E m) (lit "yuy2") :=
      Eq.trans (Eq.symm hm2) hs
    have h1 := names_distinct _ (List.mem_append_left _ (imageFormatToStr_mem E m)) (lit "yuy2")
      (by decide) hci
    have h2 := imageFormatToStr_mem E m
    rw [h1] at h2
    exact absurd h2 (by decide)

/-- A string equal up to case to none of the accepted names decodes to `FORMAT_UNKNOWN`. -/
theorem imageFormatFromStr_of_no_name {E : Enumerators} (hE : E.WellFormed) (s : CStr)
    (hs : ∀ nm ∈ acceptedNames, ¬ CaseInsensitiveEq s nm) :
    imageFormatFromStr E (some s) = E.FORMAT_UNKNOWN := by
  rw [imageFormatFromStr_some]
  cases hscan : imageFormatFromStr.scan E s E.FORMAT_COUNT 0 with
  | none =>
    have hy : ¬ CaseInsensitiveEq s (lit "yuy2") := hs _ (by decide)
    rw [if_neg (fun h => hy ((strcasecmp_eq_zero_iff _ _).1 h))]
    rfl
  | some m =>
    obtain ⟨-, hlt, hm, -⟩ := scan_eq_some _ _ _ hscan
    have hm2 : CaseInsensitiveEq s (imageFormatToStr E m) := (strcasecmp_eq_zero_iff _ _).1 hm
    rcases hE.declared m (by simpa using hlt) with hc | hu
    · have : imageFormatToStr E m ∈ canonicalNames :=
        (List.of_mem_zip (imageFormatToStr_table hE m hc)).2
      exact absurd hm2 (hs _ (List.mem_append_left _ this))
    · exact hu

/-- Every canonical name is the name of a canonical format. -/
theorem exists_format_of_name {E : Enumerators} (hE : E.WellFormed) (nm : CStr)
    (h : nm ∈ canonicalNames) : ∃ F ∈ E.canonical, imageFormatToStr E F = nm := by
  have hd := imageFormatToStr_declared hE
  simp only [canonicalNames, List.mem_cons, List.mem_singleton, List.not_mem_nil,
    or_false] at h
  rcases h with r | r | r | r | r | r | r | r | r | r | r <;> subst r
  · exact ⟨E.FORMAT_RGB8, by simp [Enumerators.canonical], hd.1⟩
  · exact ⟨E.FORMAT_RGBA8, by simp [Enumerators.canonical], hd.2.1⟩
  · exact ⟨E.FORMAT_RGB32, by simp [Enumerators.canonical], hd.2.2.1⟩
  · exact ⟨E.FORMAT_RGBA32, by simp [Enumerators.canonical], hd.2.2.2.1⟩
  · exact ⟨E.FORMAT_I420, by simp [Enumerators.canonical], hd.2.2.2.2.1⟩
  · exact ⟨E.FORMAT_YV12, by simp [Enumerators.canonical], hd.2.2.2.2.2.1⟩
  · exact ⟨E.FORMAT_NV12, by simp [Enumerators.canonical], hd.2.2.2.2.2.2.1⟩
  · exact ⟨E.FORMAT_UYVY, by simp [Enumerators.canonical], hd.2.2.2.2.2.2.2.1⟩
  · exact ⟨E.FORMAT_YUYV, by simp [Enumerators.canonical], hd.2.2.2.2.2.2.2.2.1⟩
  · exact ⟨E.FORMAT_GRAY8, by simp [Enumerators.canonical], hd.2.2.2.2.2.2.2.2.2.1⟩
  · exact ⟨E.FORMAT_GRAY32, by simp [Enumerators.canonical], hd.2.2.2.2.2.2.2.2.2.2.1⟩

/-- A canonical format is not `FORMAT_UNKNOWN`. -/
theorem canonical_ne_unknown {E : Enumerators} (hE : E.WellFormed) (F : imageFormat)
    (hF : F ∈ E.canonical) : F ≠ E.FORMAT_UNKNOWN := by
  intro h
  have hd := (List.nodup_append.1 hE.labels_distinct).2.2
  exact hd hF (by simp [h])

/-- The comparison `strcasecmp` does not see the case of its first argument. -/
theorem strcasecmp_congr {s t : CStr} (h : CaseInsensitiveEq s t) (x : CStr) :
    strcasecmp s x = strcasecmp t x := by
  induction s generalizing t x with
  | nil =>
    cases t with
    | nil => rfl
    | cons b t => simp [CaseInsensitiveEq] at h
  | cons a s ih =>
    cases t with
    | nil => simp [CaseInsensitiveEq] at h
    | cons b t =>
      simp only [CaseInsensitiveEq, List.map_cons, List.cons.injEq] at h
      cases x with
      | nil => rfl
      | cons c x =>
        unfold strcasecmp
        rw [h.1, ih h.2 x]

/-- The loop of `imageFormatFromStr` does not see the case of the string. -/
theorem scan_congr (E : Enumerators) {s t : CStr} (h : CaseInsensitiveEq s t) (k : Nat) :
    ∀ n, imageFormatFromStr.scan E s k n = imageFormatFromStr.scan E t k n := by
  induction k with
  | zero => intro n; rfl
  | succ k ih =>
    intro n
    unfold imageFormatFromStr.scan
    rw [strcasecmp_congr h, ih]

/-- Strings equal up to case decode to the same format. -/
theorem imageFormatFromStr_congr (E : Enumerators) {s t : CStr} (h : CaseInsensitiveEq s t) :
    imageFormatFromStr E (some s) = imageFormatFromStr E (some t) := by
  rw [imageFormatFromStr_some, imageFormatFromStr_some, scan_congr E h, strcasecmp_congr h]

/-! ## Channels, depth and size -/

/-- The channel count of each declared format. -/
theorem imageFormatChannels_declared {E : Enumerators} (hE : E.WellFormed) :
    imageFormatChannels E E.FORMAT_RGB8 = 3 ∧
    imageFormatChannels E E.FORMAT_RGBA8 = 4 ∧
    imageFormatChannels E E.FORMAT_RGB32 = 3 ∧
    imageFormatChannels E E.FORMAT_RGBA32 = 4 ∧
    imageFormatChannels E E.FORMAT_I420 = 3 ∧
    imageFormatChannels E E.FORMAT_YV12 = 3 ∧
    imageFormatChannels E E.FORMAT_NV12 = 3 ∧
    imageFormatChannels E E.FORMAT_UYVY = 3 ∧
    imageFormatChannels E E.FORMAT_YUYV = 3 ∧
    imageFormatChannels E E.FORMAT_GRAY8 = 1 ∧
    imageFormatChannels E E.FORMAT_GRAY32 = 1 ∧
    imageFormatChannels E E.FORMAT_UNKNOWN = 0 := by
  have h := labels_ne hE
  simp only [Enumerators.canonical, List.cons_append, List.nil_append, List.pairwise_cons,
    List.mem_cons, List.mem_singleton, forall_eq_or_imp, forall_eq] at h
  simp only [imageFormatChannels]
  simp [h]

/-- Outside the canonical formats the channel count is `0`. -/
theorem imageFormatChannels_of_not_mem (E : Enumerators) (v : imageFormat)
    (hv : v ∉ E.canonical) : imageFormatChannels E v = 0 := by
  simp only [Enumerators.canonical, List.mem_cons, List.mem_singleton, List.not_mem_nil,
    or_false, not_or] at hv
  simp [imageFormatChannels, hv]

/-- The depth of each declared format. -/
theorem imageFormatDepth_declared {E : Enumerators} (hE : E.WellFormed) :
    imageFormatDepth E E.FORMAT_RGB8 = 24 ∧
    imageFormatDepth E E.FORMAT_RGBA8 = 32 ∧
    imageFormatDepth E E.FORMAT_RGB32 = 96 ∧
    imageFormatDepth E E.FORMAT_RGBA32 = 128 ∧
    imageFormatDepth E E.FORMAT_I420 = 12 ∧
    imageFormatDepth E E.FORMAT_YV12 = 12 ∧
    imageFormatDepth E E.FORMAT_NV12 = 12 ∧
    imageFormatDepth E E.FORMAT_UYVY = 16 ∧
    imageFormatDepth E E.FORMAT_YUYV = 16 ∧
    imageFormatDepth E E.FORMAT_GRAY8 = 8 ∧
    imageFormatDepth E E.FORMAT_GRAY32 = 32 ∧
    imageFormatDepth E E.FORMAT_UNKNOWN = 0 := by
  have h := labels_ne hE
  simp only [Enumerators.canonical, List.cons_append, List.nil_append, List.pairwise_cons,
    List.mem_cons, List.mem_singleton, forall_eq_or_imp, forall_eq] at h
  simp only [imageFormatDepth, sizeof_uchar3, sizeof_uchar4, sizeof_float3, sizeof_float4,
    sizeof_uchar, sizeof_float]
  simp [h]

/-- Outside the canonical formats the depth is `0`. -/
theorem imageFormatDepth_of_not_mem (E : Enumerators) (v : imageFormat)
    (hv : v ∉ E.canonical) : imageFormatDepth E v = 0 := by
  simp only [Enumerators.canonical, List.mem_cons, List.mem_singleton, List.not_mem_nil,
    or_false, not_or] at hv
  simp [imageFormatDepth, hv]

/-- A canonical format is 4:2:0 planar with depth 12, or is not and its depth is a
multiple of 8. -/
theorem imageFormatDepth_canonical {E : Enumerators} (hE : E.WellFormed) (F : imageFormat)
    (hF : F ∈ E.canonical) :
    (F ∈ E.planar420 ∧ imageFormatDepth E F = 12) ∨
      (F ∉ E.planar420 ∧ 8 ∣ imageFormatDepth E F) := by
  have hd := imageFormatDepth_declared hE
  have h := labels_ne hE
  simp only [Enumerators.canonical, List.cons_append, List.nil_append, List.pairwise_cons,
    List.mem_cons, List.mem_singleton, forall_eq_or_imp, forall_eq] at h
  simp only [Enumerators.canonical, List.mem_cons, List.mem_singleton, List.not_mem_nil,
    or_false] at hF
  rcases hF with r | r | r | r | r | r | r | r | r | r | r <;> subst r <;>
    simp [Enumerators.planar420, hd, h] <;> decide

/-- Without overflow `imageFormatSize` is the truncated quotient of the bit count by 8. -/
theorem imageFormatSize_of_lt (E : Enumerators) (format : imageFormat) (width height : Nat)
    (h : width * height * imageFormatDepth E format < 2 ^ 64) :
    imageFormatSize E format width height = width * height * imageFormatDepth E format / 8 := by
  unfold imageFormatSize toSizeT SIZE_T_RANGE
  rcases Nat.eq_zero_or_pos (imageFormatDepth E format) with h0 | hpos
  · simp [h0]
  · have h1 : width * height < 2 ^ 64 :=
      lt_of_le_of_lt (Nat.le_mul_of_pos_right _ hpos) h
    rw [Nat.mod_eq_of_lt h1, Nat.mod_eq_of_lt h]

/-! ## Name round trip and decoding -/

/-- Claim C1. Round trip: for each of the 11 canonical formats `F`, decoding the name
`imageFormatToStr` gives to `F` with `imageFormatFromStr` yields `F` again. -/
theorem imageFormatFromStr_imageFormatToStr {E : Enumerators} (hE : E.WellFormed)
    (F : imageFormat) (hF : F ∈ E.canonical) :
    imageFormatFromStr E (some (imageFormatToStr E F)) = F :=
  imageFormatFromStr_of_name hE F hF _ rfl

theorem imageFormatFromStr_imageFormatToStr_witness :
    specEnum.WellFormed ∧ specEnum.FORMAT_NV12 ∈ specEnum.canonical ∧
      imageFormatFromStr specEnum (some (imageFormatToStr specEnum specEnum.FORMAT_NV12)) =
        specEnum.FORMAT_NV12 :=
  ⟨specEnum_wellFormed, by decide,
    imageFormatFromStr_imageFormatToStr specEnum_wellFormed specEnum.FORMAT_NV12 (by decide)⟩

/-- Claim C3. The function `imageFormatFromStr` returns `FORMAT_UNKNOWN` exactly when its
input matches nothing: for the null pointer, for the empty string, and for a string `s`
exactly when `s` is equal up to case to none of the 12 accepted names (the 11 canonical
names and `"yuy2"`); so `"not-a-format"` and `"unknown"` give `FORMAT_UNKNOWN`. -/
theorem imageFormatFromStr_eq_unknown_iff {E : Enumerators} (hE : E.WellFormed) :
    imageFormatFromStr E none = E.FORMAT_UNKNOWN ∧
    imageFormatFromStr E (some []) = E.FORMAT_UNKNOWN ∧
    imageFormatFromStr E (some (lit "not-a-format")) = E.FORMAT_UNKNOWN ∧
    imageFormatFromStr E (some (lit "unknown")) = E.FORMAT_UNKNOWN ∧
    ∀ s : CStr, imageFormatFromStr E (some s) = E.FORMAT_UNKNOWN ↔
      ∀ nm ∈ acceptedNames, ¬ CaseInsensitiveEq s nm := by
  refine ⟨rfl, imageFormatFromStr_of_no_name hE _ (by decide),
    imageFormatFromStr_of_no_name hE _ (by decide),
    imageFormatFromStr_of_no_name hE _ (by decide), fun s => ⟨fun h nm hnm hs => ?_,
      imageFormatFromStr_of_no_name hE s⟩⟩
  rcases List.mem_append.1 hnm with hc | hy
  · obtain ⟨F, hF, rfl⟩ := exists_format_of_name hE nm hc
    rw [imageFormatFromStr_of_name hE F hF s hs] at h
    exact canonical_ne_unknown hE F hF h
  · rw [List.mem_singleton] at hy
    subst hy
    rw [imageFormatFromStr_of_yuy2 E s hs] at h
    exact hE.alias_known h

theorem imageFormatFromStr_eq_unknown_iff_witness :
    specEnum.WellFormed ∧
      imageFormatFromStr specEnum (some (lit "not-a-format")) = specEnum.FORMAT_UNKNOWN ∧
      (imageFormatFromStr specEnum (some (lit "Gray8")) = specEnum.FORMAT_UNKNOWN ↔
        ∀ nm ∈ acceptedNames, ¬ CaseInsensitiveEq (lit "Gray8") nm) :=
  ⟨specEnum_wellFormed,
    (imageFormatFromStr_eq_unknown_iff specEnum_wellFormed).2.2.1,
    (imageFormatFromStr_eq_unknown_iff specEnum_wellFormed).2.2.2.2 (lit "Gray8")⟩

/-- Claim C4. The function `imageFormatFromStr` is case-insensitive: a string and any
string obtained from it by changing the case of some of its ASCII letters decode to the
same format; in particular `"RGB8"` and `"rgb8"` both decode to `FORMAT_RGB8`. -/
theorem imageFormatFromStr_caseVariant {E : Enumerators} (hE : E.WellFormed) :
    (∀ s t : CStr, CaseVariant s t →
      imageFormatFromStr E (some s) = imageFormatFromStr E (some t)) ∧
    imageFormatFromStr E (some (lit "RGB8")) = imageFormatFromStr E (some (lit "rgb8")) ∧
    imageFormatFromStr E (some (lit "rgb8")) = E.FORMAT_RGB8 := by
  have hd := (imageFormatToStr_declared hE).1
  have hm : E.FORMAT_RGB8 ∈ E.canonical := by simp [Enumerators.canonical]
  have h1 : imageFormatFromStr E (some (lit "RGB8")) = E.FORMAT_RGB8 :=
    imageFormatFromStr_of_name hE _ hm _ (by rw [hd]; decide)
  have h2 : imageFormatFromStr E (some (lit "rgb8")) = E.FORMAT_RGB8 :=
    imageFormatFromStr_of_name hE _ hm _ (by rw [hd]; decide)
  exact ⟨fun s t h => imageFormatFromStr_congr E h.caseInsensitiveEq, h1.trans h2.symm, h2⟩

theorem imageFormatFromStr_caseVariant_witness :
    specEnum.WellFormed ∧ CaseVariant (lit "nv12") (lit "Nv12") ∧
      imageFormatFromStr specEnum (some (lit "nv12")) =
        imageFormatFromStr specEnum (some (lit "Nv12")) :=
  ⟨specEnum_wellFormed,
    .cons (by decide) (.cons (by decide) (.cons (by decide) (.cons (by decide) .nil))),
    (imageFormatFromStr_caseVariant specEnum_wellFormed).1 _ _
      (.cons (by decide) (.cons (by decide) (.cons (by decide) (.cons (by decide) .nil))))⟩

/-- Claim C5. Every string equal up to case to `"yuy2"` decodes to the legacy alias
`FORMAT_YUY2`, and the name `imageFormatToStr` gives to the decoded value is not
`"yuy2"`. -/
theorem imageFormatFromStr_yuy2 (E : Enumerators) (s : CStr)
    (hs : CaseInsensitiveEq s (lit "yuy2")) :
    imageFormatFromStr E (some s) = E.FORMAT_YUY2 ∧
      imageFormatToStr E (imageFormatFromStr E (some s)) ≠ lit "yuy2" := by
  refine ⟨imageFormatFromStr_of_yuy2 E s hs, fun h => ?_⟩
  have hm := imageFormatToStr_mem E (imageFormatFromStr E (some s))
  rw [h] at hm
  exact absurd hm (by decide)

theorem imageFormatFromStr_yuy2_witness :
    CaseInsensitiveEq (lit "YuY2") (lit "yuy2") ∧
      imageFormatFromStr specEnum (some (lit "YuY2")) = specEnum.FORMAT_YUY2 ∧
      imageFormatToStr specEnum (imageFormatFromStr specEnum (some (lit "YuY2"))) ≠
        lit "yuy2" :=
  ⟨by decide, imageFormatFromStr_yuy2 specEnum (lit "YuY2") (by decide)⟩

/-- Claim C6. The function `imageFormatToStr` is total over all values of the underlying
integer representation: it gives each of the 11 canonical formats its lowercase name,
`"unknown"` to `FORMAT_UNKNOWN` and to every other value; its result is always one of
these twelve strings and never `"yuy2"`. -/
theorem imageFormatToStr_total {E : Enumerators} (hE : E.WellFormed) :
    imageFormatToStr E E.FORMAT_RGB8 = lit "rgb8" ∧
    imageFormatToStr E E.FORMAT_RGBA8 = lit "rgba8" ∧
    imageFormatToStr E E.FORMAT_RGB32 = lit "rgb32" ∧
    imageFormatToStr E E.FORMAT_RGBA32 = lit "rgba32" ∧
    imageFormatToStr E E.FORMAT_I420 = lit "i420" ∧
    imageFormatToStr E E.FORMAT_YV12 = lit "yv12" ∧
    imageFormatToStr E E.FORMAT_NV12 = lit "nv12" ∧
    imageFormatToStr E E.FORMAT_UYVY = lit "uyvy" ∧
    imageFormatToStr E E.FORMAT_YUYV = lit "yuyv" ∧
    imageFormatToStr E E.FORMAT_GRAY8 = lit "gray8" ∧
    imageFormatToStr E E.FORMAT_GRAY32 = lit "gray32" ∧
    imageFormatToStr E E.FORMAT_UNKNOWN = lit "unknown" ∧
    (∀ v : imageFormat, v ∉ E.canonical → imageFormatToStr E v = lit "unknown") ∧
    (∀ v : imageFormat, imageFormatToStr E v ∈ emittedNames) ∧
    (∀ v : imageFormat, imageFormatToStr E v ≠ lit "yuy2") := by
  have hd := imageFormatToStr_declared hE
  refine ⟨hd.1, hd.2.1, hd.2.2.1, hd.2.2.2.1, hd.2.2.2.2.1, hd.2.2.2.2.2.1,
    hd.2.2.2.2.2.2.1, hd.2.2.2.2.2.2.2.1, hd.2.2.2.2.2.2.2.2.1, hd.2.2.2.2.2.2.2.2.2.1,
    hd.2.2.2.2.2.2.2.2.2.2.1, hd.2.2.2.2.2.2.2.2.2.2.2,
    imageFormatToStr_of_not_mem E, imageFormatToStr_mem E, fun v h => ?_⟩
  have hm := imageFormatToStr_mem E v
  rw [h] at hm
  exact absurd hm (by decide)

theorem imageFormatToStr_total_witness :
    specEnum.WellFormed ∧ imageFormatToStr specEnum specEnum.FORMAT_GRAY32 = lit "gray32" ∧
      imageFormatToStr specEnum 4096 ∈ emittedNames :=
  ⟨specEnum_wellFormed,
    (imageFormatToStr_total specEnum_wellFormed).2.2.2.2.2.2.2.2.2.2.1,
    (imageFormatToStr_total specEnum_wellFormed).2.2.2.2.2.2.2.2.2.2.2.2.2.1 4096⟩

/-! ## Channel count, depth and buffer size -/

/-- Claim C7. The function `imageFormatChannels` returns 3 for RGB8 and RGB32, 4 for RGBA8
and RGBA32, 1 for GRAY8 and GRAY32, 3 for each of I420, YV12, NV12, UYVY and YUYV, and 0
for `FORMAT_UNKNOWN` and for every other value not among these 11 formats. -/
theorem imageFormatChannels_values {E : Enumerators} (hE : E.WellFormed) :
    imageFormatChannels E E.FORMAT_RGB8 = 3 ∧
    imageFormatChannels E E.FORMAT_RGB32 = 3 ∧
    imageFormatChannels E E.FORMAT_RGBA8 = 4 ∧
    imageFormatChannels E E.FORMAT_RGBA32 = 4 ∧
    imageFormatChannels E E.FORMAT_GRAY8 = 1 ∧
    imageFormatChannels E E.FORMAT_GRAY32 = 1 ∧
    imageFormatChannels E E.FORMAT_I420 = 3 ∧
    imageFormatChannels E E.FORMAT_YV12 = 3 ∧
    imageFormatChannels E E.FORMAT_NV12 = 3 ∧
    imageFormatChannels E E.FORMAT_UYVY = 3 ∧
    imageFormatChannels E E.FORMAT_YUYV = 3 ∧
    imageFormatChannels E E.FORMAT_UNKNOWN = 0 ∧
    ∀ v : imageFormat, v ∉ E.canonical → imageFormatChannels E v = 0 := by
  obtain ⟨h1, h2, h3, h4, h5, h6, h7, h8, h9, h10, h11, h12⟩ := imageFormatChannels_declared hE
  exact ⟨h1, h3, h2, h4, h10, h11, h5, h6, h7, h8, h9, h12,
    imageFormatChannels_of_not_mem E⟩

theorem imageFormatChannels_values_witness :
    specEnum.WellFormed ∧ imageFormatChannels specEnum specEnum.FORMAT_RGBA8 = 4 :=
  ⟨specEnum_wellFormed, (imageFormatChannels_values specEnum_wellFormed).2.2.1⟩

/-- Claim C8. The function `imageFormatDepth` returns bits per pixel: 24 for RGB8, 32 for
RGBA8, 96 for RGB32, 128 for RGBA32, 8 for GRAY8, 32 for GRAY32, 12 for the 4:2:0 planar
formats I420, YV12 and NV12, 16 for the 4:2:2 packed formats UYVY and YUYV, and 0 for
`FORMAT_UNKNOWN` and for every other value not among the 11 declared formats. -/
theorem imageFormatDepth_values {E : Enumerators} (hE : E.WellFormed) :
    imageFormatDepth E E.FORMAT_RGB8 = 24 ∧
    imageFormatDepth E E.FORMAT_RGBA8 = 32 ∧
    imageFormatDepth E E.FORMAT_RGB32 = 96 ∧
    imageFormatDepth E E.FORMAT_RGBA32 = 128 ∧
    imageFormatDepth E E.FORMAT_GRAY8 = 8 ∧
    imageFormatDepth E E.FORMAT_GRAY32 = 32 ∧
    (∀ F ∈ E.planar420, imageFormatDepth E F = 12) ∧
    imageFormatDepth E E.FORMAT_UYVY = 16 ∧
    imageFormatDepth E E.FORMAT_YUYV = 16 ∧
    imageFormatDepth E E.FORMAT_UNKNOWN = 0 ∧
    ∀ v : imageFormat, v ∉ E.canonical → imageFormatDepth E v = 0 := by
  obtain ⟨h1, h2, h3, h4, h5, h6, h7, h8, h9, h10, h11, h12⟩ := imageFormatDepth_declared hE
  refine ⟨h1, h2, h3, h4, h10, h11, fun F hF => ?_, h8, h9, h12,
    imageFormatDepth_of_not_mem E⟩
  simp only [Enumerators.planar420, List.mem_cons, List.mem_singleton, List.not_mem_nil,
    or_false] at hF
  rcases hF with r | r | r <;> subst r <;> assumption

theorem imageFormatDepth_values_witness :
    specEnum.WellFormed ∧ imageFormatDepth specEnum specEnum.FORMAT_RGB32 = 96 :=
  ⟨specEnum_wellFormed, (imageFormatDepth_values specEnum_wellFormed).2.2.1⟩

/-- Claim C9. The function `imageFormatSize` returns 0 whenever the depth of the format
is 0 (so for `FORMAT_UNKNOWN` and every undeclared value), whenever the width is 0 and
whenever the height is 0, whatever the other arguments are. -/
theorem imageFormatSize_eq_zero {E : Enumerators} (hE : E.WellFormed) :
    (∀ (format : imageFormat) (width height : Nat),
      imageFormatDepth E format = 0 → imageFormatSize E format width height = 0) ∧
    (∀ width height : Nat, imageFormatSize E E.FORMAT_UNKNOWN width height = 0) ∧
    (∀ v : imageFormat, v ∉ E.canonical →
      ∀ width height : Nat, imageFormatSize E v width height = 0) ∧
    (∀ (format : imageFormat) (height : Nat), imageFormatSize E format 0 height = 0) ∧
    (∀ (format : imageFormat) (width : Nat), imageFormatSize E format width 0 = 0) := by
  have h0 : ∀ (format : imageFormat) (width height : Nat),
      imageFormatDepth E format = 0 → imageFormatSize E format width height = 0 := by
    intro format width height h
    simp [imageFormatSize, toSizeT, h]
  refine ⟨h0, fun w h => h0 _ w h (imageFormatDepth_declared hE).2.2.2.2.2.2.2.2.2.2.2,
    fun v hv w h => h0 v w h (imageFormatDepth_of_not_mem E v hv), ?_, ?_⟩
  · intro format height
    simp [imageFormatSize, toSizeT]
  · intro format width
    simp [imageFormatSize, toSizeT]

theorem imageFormatSize_eq_zero_witness :
    specEnum.WellFormed ∧ imageFormatSize specEnum specEnum.FORMAT_UNKNOWN 640 480 = 0 ∧
      imageFormatSize specEnum specEnum.FORMAT_RGB8 0 480 = 0 :=
  ⟨specEnum_wellFormed, (imageFormatSize_eq_zero specEnum_wellFormed).2.1 640 480,
    (imageFormatSize_eq_zero specEnum_wellFormed).2.2.2.1 specEnum.FORMAT_RGB8 480⟩

/-- Claim C2, as stated, fails: for a 2^32 by 2^32 RGBA8 image (both dimensions are
values of `size_t`) the product `width * height` wraps to 0, so `imageFormatSize`
returns 0 while `(width * height * depth) / 8` is 2^66. -/
theorem imageFormatSize_wraps :
    2 ^ 32 < SIZE_T_RANGE ∧
    imageFormatSize specEnum specEnum.FORMAT_RGBA8 (2 ^ 32) (2 ^ 32) = 0 ∧
    2 ^ 32 * 2 ^ 32 * imageFormatDepth specEnum specEnum.FORMAT_RGBA8 / 8 = 2 ^ 66 ∧
    imageFormatSize specEnum specEnum.FORMAT_RGBA8 (2 ^ 32) (2 ^ 32) ≠
      2 ^ 32 * 2 ^ 32 * imageFormatDepth specEnum specEnum.FORMAT_RGBA8 / 8 := by
  decide

/-- Claim C2, amended. For every format and every width and height whose bit count
`width * height * imageFormatDepth(format)` is below 2^64, `imageFormatSize` equals
`(width * height * imageFormatDepth(format)) / 8` with truncating division, the byte size
of a full-resolution buffer; in particular it is 64 for a 4 by 4 RGBA8 image and 6 for a
2 by 2 I420 image. -/
theorem imageFormatSize_eq {E : Enumerators} (hE : E.WellFormed) :
    (∀ (format : imageFormat) (width height : Nat),
      width * height * imageFormatDepth E format < 2 ^ 64 →
      imageFormatSize E format width height =
        width * height * imageFormatDepth E format / 8) ∧
    imageFormatSize E E.FORMAT_RGBA8 4 4 = 64 ∧
    imageFormatSize E E.FORMAT_I420 2 2 = 6 := by
  have hd := imageFormatDepth_declared hE
  refine ⟨imageFormatSize_of_lt E, ?_, ?_⟩
  · rw [imageFormatSize_of_lt E _ _ _ (by rw [hd.2.1]; decide), hd.2.1]
  · rw [imageFormatSize_of_lt E _ _ _ (by rw [hd.2.2.2.2.1]; decide), hd.2.2.2.2.1]

theorem imageFormatSize_eq_witness :
    specEnum.WellFormed ∧
      1920 * 1080 * imageFormatDepth specEnum specEnum.FORMAT_NV12 < 2 ^ 64 ∧
      imageFormatSize specEnum specEnum.FORMAT_NV12 1920 1080 =
        1920 * 1080 * imageFormatDepth specEnum specEnum.FORMAT_NV12 / 8 :=
  ⟨specEnum_wellFormed, by decide,
    (imageFormatSize_eq specEnum_wellFormed).1 specEnum.FORMAT_NV12 1920 1080 (by decide)⟩

/-- Claim C10, as stated, fails: a 1 by 1 I420 image has 12 bits, which is not a
multiple of 8, and `imageFormatSize` returns 1, so 8 times the result is 8, not 12;
and for a 2^32 by 2^32 GRAY8 image the product wraps and the result is 0. -/
theorem imageFormatSize_truncates :
    imageFormatDepth specEnum specEnum.FORMAT_I420 = 12 ∧
    imageFormatSize specEnum specEnum.FORMAT_I420 1 1 = 1 ∧
    ¬ 8 ∣ 1 * 1 * imageFormatDepth specEnum specEnum.FORMAT_I420 ∧
    8 * imageFormatSize specEnum specEnum.FORMAT_I420 1 1 ≠
      1 * 1 * imageFormatDepth specEnum specEnum.FORMAT_I420 ∧
    8 * imageFormatSize specEnum specEnum.FORMAT_GRAY8 (2 ^ 32) (2 ^ 32) ≠
      2 ^ 32 * 2 ^ 32 * imageFormatDepth specEnum specEnum.FORMAT_GRAY8 := by
  decide

/-- Claim C10, amended. For a canonical format that is not 4:2:0 planar (I420, YV12,
NV12), or when `width * height` is even, the bit count `width * height * depth` is an
exact multiple of 8, and `8 * imageFormatSize` equals it when it is below 2^64.  For a
4:2:0 planar format with odd `width * height` the bit count is not a multiple of 8 and
half a byte is truncated: `8 * imageFormatSize + 4` equals it when it is below 2^64. -/
theorem imageFormatSize_exact {E : Enumerators} (hE : E.WellFormed) (F : imageFormat)
    (hF : F ∈ E.canonical) (width height : Nat) :
    ((F ∉ E.planar420 ∨ 2 ∣ width * height) →
      8 ∣ width * height * imageFormatDepth E F ∧
      (width * height * imageFormatDepth E F < 2 ^ 64 →
        8 * imageFormatSize E F width height = width * height * imageFormatDepth E F)) ∧
    ((F ∈ E.planar420 ∧ ¬ 2 ∣ width * height) →
      ¬ 8 ∣ width * height * imageFormatDepth E F ∧
      (width * height * imageFormatDepth E F < 2 ^ 64 →
        8 * imageFormatSize E F width height + 4 =
          width * height * imageFormatDepth E F)) := by
  have hsz := imageFormatSize_of_lt E F width height
  generalize width * height = p at hsz ⊢
  rcases imageFormatDepth_canonical hE F hF with ⟨hp, hd⟩ | ⟨hp, hd⟩
  · rw [hd] at hsz ⊢
    constructor
    · rintro (h | h)
      · exact absurd hp h
      · refine ⟨by omega, fun hlt => ?_⟩
        rw [hsz hlt]
        omega
    · rintro ⟨-, h⟩
      refine ⟨by omega, fun hlt => ?_⟩
      rw [hsz hlt]
      omega
  · have h8 : 8 ∣ p * imageFormatDepth E F := Dvd.dvd.mul_left hd p
    constructor
    · intro _
      refine ⟨h8, fun hlt => ?_⟩
      rw [hsz hlt]
      exact Nat.mul_div_cancel' h8
    · rintro ⟨h, -⟩
      exact absurd h hp

theorem imageFormatSize_exact_witness :
    specEnum.WellFormed ∧ specEnum.FORMAT_YV12 ∈ specEnum.canonical ∧
      (specEnum.FORMAT_YV12 ∉ specEnum.planar420 ∨ 2 ∣ 640 * 480) ∧
      640 * 480 * imageFormatDepth specEnum specEnum.FORMAT_YV12 < 2 ^ 64 ∧
      8 * imageFormatSize specEnum specEnum.FORMAT_YV12 640 480 =
        640 * 480 * imageFormatDepth specEnum specEnum.FORMAT_YV12 :=
  ⟨specEnum_wellFormed, by decide, by decide, by decide,
    ((imageFormatSize_exact specEnum_wellFormed specEnum.FORMAT_YV12 (by decide) 640 480).1
      (by decide)).2 (by decide)⟩

/-! ## Agreement of the metadata tables -/

/-- A value with a `case` label in `imageFormatChannels` has a channel count other
than `0`. -/
theorem imageFormatChannels_ne_zero (E : Enumerators) (v : imageFormat)
    (hv : v ∈ E.canonical) : imageFormatChannels E v ≠ 0 := by
  unfold imageFormatChannels
  by_cases c1 : v = E.FORMAT_RGB8
  · rw [if_pos c1]; decide
  rw [if_neg c1]
  by_cases c2 : v = E.FORMAT_RGBA8
  · rw [if_pos c2]; decide
  rw [if_neg c2]
  by_cases c3 : v = E.FORMAT_RGB32
  · rw [if_pos c3]; decide
  rw [if_neg c3]
  by_cases c4 : v = E.FORMAT_RGBA32
  · rw [if_pos c4]; decide
  rw [if_neg c4]
  by_cases c5 : v = E.FORMAT_GRAY8
  · rw [if_pos c5]; decide
  rw [if_neg c5]
  by_cases c6 : v = E.FORMAT_GRAY32
  · rw [if_pos c6]; decide
  rw [if_neg c6]
  by_cases c7 : v = E.FORMAT_I420
  · rw [if_pos c7]; decide
  rw [if_neg c7]
  by_cases c8 : v = E.FORMAT_YV12
  · rw [if_pos c8]; decide
  rw [if_neg c8]
  by_cases c9 : v = E.FORMAT_NV12
  · rw [if_pos c9]; decide
  rw [if_neg c9]
  by_cases c10 : v = E.FORMAT_UYVY
  · rw [if_pos c10]; decide
  rw [if_neg c10]
  by_cases c11 : v = E.FORMAT_YUYV
  · rw [if_pos c11]; decide
  rw [if_neg c11]
  exfalso
  simp only [Enumerators.canonical, List.mem_cons, List.mem_singleton, List.not_mem_nil,
    or_false] at hv
  rcases hv with h | h | h | h | h | h | h | h | h | h | h <;> contradiction

/-- A value with a `case` label in `imageFormatDepth` has a depth other than `0`. -/
theorem imageFormatDepth_ne_zero (E : Enumerators) (v : imageFormat)
    (hv : v ∈ E.canonical) : imageFormatDepth E v ≠ 0 := by
  unfold imageFormatDepth
  by_cases c1 : v = E.FORMAT_RGB8
  · rw [if_pos c1]; decide
  rw [if_neg c1]
  by_cases c2 : v = E.FORMAT_RGBA8
  · rw [if_pos c2]; decide
  rw [if_neg c2]
  by_cases c3 : v = E.FORMAT_RGB32
  · rw [if_pos c3]; decide
  rw [if_neg c3]
  by_cases c4 : v = E.FORMAT_RGBA32
  · rw [if_pos c4]; decide
  rw [if_neg c4]
  by_cases c5 : v = E.FORMAT_GRAY8
  · rw [if_pos c5]; decide
  rw [if_neg c5]
  by_cases c6 : v = E.FORMAT_GRAY32
  · rw [if_pos c6]; decide
  rw [if_neg c6]
  by_cases c7 : v = E.FORMAT_I420
  · rw [if_pos c7]; decide
  rw [if_neg c7]
  by_cases c8 : v = E.FORMAT_YV12
  · rw [if_pos c8]; decide
  rw [if_neg c8]
  by_cases c9 : v = E.FORMAT_NV12
  · rw [if_pos c9]; decide
  rw [if_neg c9]
  by_cases c10 : v = E.FORMAT_UYVY
  · rw [if_pos c10]; decide
  rw [if_neg c10]
  by_cases c11 : v = E.FORMAT_YUYV
  · rw [if_pos c11]; decide
  rw [if_neg c11]
  exfalso
  simp only [Enumerators.canonical, List.mem_cons, List.mem_singleton, List.not_mem_nil,
    or_false] at hv
  rcases hv with h | h | h | h | h | h | h | h | h | h | h <;> contradiction

/-- The result of `imageFormatToStr` is `"unknown"` exactly outside the canonical
formats. -/
theorem imageFormatToStr_eq_unknown_iff (E : Enumerators) (v : imageFormat) :
    imageFormatToStr E v = lit "unknown" ↔ v ∉ E.canonical := by
  refine ⟨?_, imageFormatToStr_of_not_mem E v⟩
  apply imageFormatToStr_cases E v (fun x => x = lit "unknown" → v ∉ E.canonical)
  all_goals intro h hx
  all_goals first
    | exact h
    | exact absurd hx (by decide)

/-- The names `imageFormatToStr` can return are in lower case. -/
theorem emittedNames_lower : ∀ nm ∈ emittedNames ++ [lit "yuy2"], nm.map tolower = nm := by
  decide

/-- Claim C16. The three metadata tables agree on which values are real formats: for
every value `v` of the underlying integer representation, `imageFormatChannels` is 0
iff `imageFormatDepth` is 0 iff `imageFormatToStr` is `"unknown"`, which is the case
exactly when `v` is none of the 11 canonical formats. -/
theorem metadata_tables_agree (E : Enumerators) (v : imageFormat) :
    (imageFormatChannels E v = 0 ↔ imageFormatDepth E v = 0) ∧
    (imageFormatDepth E v = 0 ↔ imageFormatToStr E v = lit "unknown") ∧
    (imageFormatToStr E v = lit "unknown" ↔ v ∉ E.canonical) := by
  have hc : imageFormatChannels E v = 0 ↔ v ∉ E.canonical :=
    ⟨fun h hv => imageFormatChannels_ne_zero E v hv h, imageFormatChannels_of_not_mem E v⟩
  have hd : imageFormatDepth E v = 0 ↔ v ∉ E.canonical :=
    ⟨fun h hv => imageFormatDepth_ne_zero E v hv h, imageFormatDepth_of_not_mem E v⟩
  have hs := imageFormatToStr_eq_unknown_iff E v
  exact ⟨hc.trans hd.symm, hd.trans hs.symm, hs⟩

/-! ## Depths of the YUV formats -/

/-- Claim C11, as stated, fails: three canonical formats (I420, YV12 and NV12), not two,
have depth 12. -/
theorem imageFormatDepth_twelve_count :
    specEnum.canonical.filter (fun F => decide (imageFormatDepth specEnum F = 12)) =
      [specEnum.FORMAT_I420, specEnum.FORMAT_YV12, specEnum.FORMAT_NV12] ∧
    (specEnum.canonical.filter
      (fun F => decide (imageFormatDepth specEnum F = 12))).length ≠ 2 := by
  decide

/-- Claim C11, amended. Among the 11 canonical formats, which are pairwise different,
exactly three have depth 12 (the 4:2:0 formats I420, YV12 and NV12) and exactly two have
depth 16 (the 4:2:2 packed formats UYVY and YUYV). -/
theorem imageFormatDepth_yuv {E : Enumerators} (hE : E.WellFormed) :
    E.canonical.Nodup ∧
    E.canonical.filter (fun F => decide (imageFormatDepth E F = 12)) = E.planar420 ∧
    E.planar420.length = 3 ∧
    E.canonical.filter (fun F => decide (imageFormatDepth E F = 16)) = E.packed422 ∧
    E.packed422.length = 2 := by
  obtain ⟨h1, h2, h3, h4, h5, h6, h7, h8, h9, h10, h11, -⟩ := imageFormatDepth_declared hE
  refine ⟨(List.nodup_append.1 hE.labels_distinct).1, ?_, rfl, ?_, rfl⟩
  · simp [Enumerators.canonical, Enumerators.planar420, List.filter, h1, h2, h3, h4, h5, h6,
      h7, h8, h9, h10, h11]
  · simp [Enumerators.canonical, Enumerators.packed422, List.filter, h1, h2, h3, h4, h5, h6,
      h7, h8, h9, h10, h11]

theorem imageFormatDepth_yuv_witness :
    specEnum.WellFormed ∧
      specEnum.canonical.filter (fun F => decide (imageFormatDepth specEnum F = 16)) =
        specEnum.packed422 :=
  ⟨specEnum_wellFormed, (imageFormatDepth_yuv specEnum_wellFormed).2.2.2.1⟩

/-! ## The scan against the fixed table -/

/-- The fixed table gives the name of a canonical format that format. -/
theorem nameTable_lookup_of_table (E : Enumerators) (F : imageFormat) (nm : CStr)
    (h : (F, nm) ∈ E.table) : E.nameTable.lookup nm = some F := by
  simp only [Enumerators.table, Enumerators.canonical, canonicalNames, List.zip_cons_cons,
    List.zip_nil_right, List.mem_cons, List.mem_singleton, List.not_mem_nil, or_false,
    Prod.mk.injEq] at h
  rcases h with h | h | h | h | h | h | h | h | h | h | h <;> obtain ⟨rfl, rfl⟩ := h <;> rfl

/-- The fixed table has no key outside the accepted names. -/
theorem nameTable_lookup_eq_none (E : Enumerators) (key : CStr) (h : key ∉ acceptedNames) :
    E.nameTable.lookup key = none := by
  rw [List.lookup_eq_none_iff]
  intro p hp
  have hk : p.1 ∈ acceptedNames := by
    simp only [Enumerators.nameTable, List.mem_cons, List.mem_singleton, List.not_mem_nil,
      or_false] at hp
    rcases hp with r | r | r | r | r | r | r | r | r | r | r | r <;> subst r <;>
      show _ ∈ acceptedNames <;> simp only [] <;> decide
  have hne : key ≠ p.1 := fun e => h (e ▸ hk)
  simpa using hne

/-- Claim C12. The linear scan of `imageFormatFromStr` is observably equal to a direct
fixed-table lookup: for every non-null string `s`, `imageFormatFromStr` returns the
entry of the table keyed by the ASCII-lowercased `s` (the 11 canonical names with their
formats and `"yuy2"` with `FORMAT_YUY2`), and `FORMAT_UNKNOWN` when there is none.  The
canonical names are pairwise different up to case, so a string matches at most one
canonical format and the first-match rule never chooses between two candidates. -/
theorem imageFormatFromStr_eq_tableLookup {E : Enumerators} (hE : E.WellFormed) :
    (∀ s : CStr, imageFormatFromStr E (some s) = tableLookup E s) ∧
    canonicalNames.Pairwise (fun a b => ¬ CaseInsensitiveEq a b) ∧
    (∀ (s : CStr) (F G : imageFormat), F ∈ E.canonical → G ∈ E.canonical →
      strcasecmp s (imageFormatToStr E F) = 0 → strcasecmp s (imageFormatToStr E G) = 0 →
      F = G) := by
  refine ⟨fun s => ?_, by decide, fun s F G hF hG h1 h2 => ?_⟩
  · unfold tableLookup
    by_cases h : ∃ nm ∈ acceptedNames, CaseInsensitiveEq s nm
    · obtain ⟨nm, hnm, hs⟩ := h
      have hlow : s.map tolower = nm := by
        have := emittedNames_lower nm (by
          rcases List.mem_append.1 hnm with hc | hy
          · exact List.mem_append_left _ (List.mem_append_left _ hc)
          · exact List.mem_append_right _ hy)
        exact Eq.trans hs this
      rcases List.mem_append.1 hnm with hc | hy
      · obtain ⟨F, hF, rfl⟩ := exists_format_of_name hE nm hc
        rw [imageFormatFromStr_of_name hE F hF s hs, hlow,
          nameTable_lookup_of_table E F _ (imageFormatToStr_table hE F hF)]
        rfl
      · rw [List.mem_singleton] at hy
        subst hy
        rw [imageFormatFromStr_of_yuy2 E s hs, hlow]
        rfl
    · have hno : ∀ nm ∈ acceptedNames, ¬ CaseInsensitiveEq s nm :=
        fun nm hnm hs => h ⟨nm, hnm, hs⟩
      have hkey : s.map tolower ∉ acceptedNames := by
        intro hmem
        refine hno _ hmem ?_
        have := emittedNames_lower (s.map tolower) (by
          rcases List.mem_append.1 hmem with hc | hy
          · exact List.mem_append_left _ (List.mem_append_left _ hc)
          · exact List.mem_append_right _ hy)
        exact this.symm
      rw [imageFormatFromStr_of_no_name hE s hno, nameTable_lookup_eq_none E _ hkey]
      rfl
  · have e1 := imageFormatFromStr_of_name hE F hF s ((strcasecmp_eq_zero_iff _ _).1 h1)
    have e2 := imageFormatFromStr_of_name hE G hG s ((strcasecmp_eq_zero_iff _ _).1 h2)
    exact e1.symm.trans e2

theorem imageFormatFromStr_eq_tableLookup_witness :
    specEnum.WellFormed ∧
      imageFormatFromStr specEnum (some (lit "Rgba32")) = tableLookup specEnum (lit "Rgba32") :=
  ⟨specEnum_wellFormed, (imageFormatFromStr_eq_tableLookup specEnum_wellFormed).1 _⟩

/-- Claim C15. Reverse round trip: for every string `s` equal up to case to the canonical
name of one of the 11 canonical formats, `imageFormatToStr (imageFormatFromStr s)` is the
ASCII-lowercased `s`. -/
theorem imageFormatToStr_imageFormatFromStr {E : Enumerators} (hE : E.WellFormed)
    (s : CStr) (F : imageFormat) (hF : F ∈ E.canonical)
    (hs : CaseInsensitiveEq s (imageFormatToStr E F)) :
    imageFormatToStr E (imageFormatFromStr E (some s)) = s.map tolower := by
  rw [imageFormatFromStr_of_name hE F hF s hs]
  have hlow := emittedNames_lower _ (List.mem_append_left _ (imageFormatToStr_mem E F))
  exact (Eq.trans hs hlow).symm

theorem imageFormatToStr_imageFormatFromStr_witness :
    specEnum.WellFormed ∧ specEnum.FORMAT_UYVY ∈ specEnum.canonical ∧
      CaseInsensitiveEq (lit "UyVy") (imageFormatToStr specEnum specEnum.FORMAT_UYVY) ∧
      imageFormatToStr specEnum (imageFormatFromStr specEnum (some (lit "UyVy"))) =
        (lit "UyVy").map tolower :=
  ⟨specEnum_wellFormed, by decide, by decide,
    imageFormatToStr_imageFormatFromStr specEnum_wellFormed (lit "UyVy")
      specEnum.FORMAT_UYVY (by decide) (by decide)⟩

/-! ## Wrap-around of the buffer size -/

/-- Claim C14. With 64-bit `size_t`, `imageFormatSize` equals
`((width * height * depth) mod 2^64) / 8`; hence it is the exact byte count
`(width * height * depth) / 8` whenever `width * height * depth` is below 2^64, and for
some canonical format and some width and height below 2^64 the result is smaller than
the exact byte count. -/
theorem imageFormatSize_mod (E : Enumerators) :
    (∀ (format : imageFormat) (width height : Nat),
      imageFormatSize E format width height =
        width * height * imageFormatDepth E format % 2 ^ 64 / 8) ∧
    (∀ (format : imageFormat) (width height : Nat),
      width * height * imageFormatDepth E format < 2 ^ 64 →
      imageFormatSize E format width height =
        width * height * imageFormatDepth E format / 8) ∧
    ∃ F ∈ E.canonical, ∃ width height : Nat, width < 2 ^ 64 ∧ height < 2 ^ 64 ∧
      imageFormatSize E F width height < width * height * imageFormatDepth E F / 8 := by
  refine ⟨fun format width height => ?_, imageFormatSize_of_lt E, ?_⟩
  · unfold imageFormatSize toSizeT SIZE_T_RANGE
    rw [Nat.mod_mul_mod]
  · have hd : imageFormatDepth E E.FORMAT_RGB8 = 24 := by
      simp [imageFormatDepth, sizeof_uchar3]
    refine ⟨E.FORMAT_RGB8, by simp [Enumerators.canonical], 2 ^ 32, 2 ^ 32, by decide,
      by decide, ?_⟩
    unfold imageFormatSize
    rw [hd]
    decide

/-! ## `imageFormatFromType` -/

/-- Claim C13. The function `imageFormatFromType` is defined for exactly the four sample
types `uchar3`, `uchar4`, `float3` and `float4`, and returns `FORMAT_RGB8`,
`FORMAT_RGBA8`, `FORMAT_RGB32` and `FORMAT_RGBA32` respectively; its domain has no
other type. -/
theorem imageFormatFromType_values (E : Enumerators) :
    imageFormatFromType E SampleType.uchar3 = E.FORMAT_RGB8 ∧
    imageFormatFromType E SampleType.uchar4 = E.FORMAT_RGBA8 ∧
    imageFormatFromType E SampleType.float3 = E.FORMAT_RGB32 ∧
    imageFormatFromType E SampleType.float4 = E.FORMAT_RGBA32 ∧
    ∀ T : SampleType,
      T ∈ [SampleType.uchar3, SampleType.uchar4, SampleType.float3, SampleType.float4] := by
  refine ⟨rfl, rfl, rfl, rfl, fun T => ?_⟩
  cases T <;> decide

/-- The two wrapping products of `imageFormatSize` amount to one reduction modulo 2^64. -/
theorem imageFormatSize_eq_mod (E : Enumerators) (format : imageFormat) (width height : Nat) :
    imageFormatSize E format width height =
      width * height * imageFormatDepth E format % 2 ^ 64 / 8 := by
  unfold imageFormatSize toSizeT SIZE_T_RANGE
  rw [Nat.mod_mul_mod]

/-- Claim C17, as stated, fails: for `uchar4` and a 2^31 by 2^28 image the byte product
`w * h * sizeof(T)` is 2^61 and does not overflow `size_t`, but the bit product
`w * h * depth` the code computes is 2^64 and wraps to 0, so `imageFormatSize` returns
0, not 2^61. -/
theorem imageFormatFromType_size_wraps :
    2 ^ 31 < SIZE_T_RANGE ∧ 2 ^ 28 < SIZE_T_RANGE ∧
    2 ^ 31 * 2 ^ 28 * SampleType.uchar4.sizeofSample = 2 ^ 61 ∧
    2 ^ 31 * 2 ^ 28 * SampleType.uchar4.sizeofSample < SIZE_T_RANGE ∧
    imageFormatSize specEnum (imageFormatFromType specEnum SampleType.uchar4)
      (2 ^ 31) (2 ^ 28) = 0 ∧
    imageFormatSize specEnum (imageFormatFromType specEnum SampleType.uchar4)
      (2 ^ 31) (2 ^ 28) ≠ 2 ^ 31 * 2 ^ 28 * SampleType.uchar4.sizeofSample := by
  decide

/-- Claim C17, amended. The type-to-format mapping agrees with the metadata tables: for
each supported sample type `T`, the depth of `imageFormatFromType<T>()` is
`8 * sizeof(T)` and its channel count is the component count of `T`; `imageFormatSize`
of that format is `w * h * sizeof(T)` whenever the bit product `w * h * 8 * sizeof(T)`
the code computes is below 2^64, and is smaller than `w * h * sizeof(T)` whenever that
bit product reaches 2^64. -/
theorem imageFormatFromType_consistent {E : Enumerators} (hE : E.WellFormed)
    (T : SampleType) :
    imageFormatDepth E (imageFormatFromType E T) = 8 * T.sizeofSample ∧
    imageFormatChannels E (imageFormatFromType E T) = T.components ∧
    (∀ w h : Nat, w * h * (8 * T.sizeofSample) < 2 ^ 64 →
      imageFormatSize E (imageFormatFromType E T) w h = w * h * T.sizeofSample) ∧
    (∀ w h : Nat, 2 ^ 64 ≤ w * h * (8 * T.sizeofSample) →
      imageFormatSize E (imageFormatFromType E T) w h < w * h * T.sizeofSample) := by
  obtain ⟨d1, d2, d3, d4, -⟩ := imageFormatDepth_declared hE
  obtain ⟨c1, c2, c3, c4, -⟩ := imageFormatChannels_declared hE
  have key : ∀ (F : imageFormat) (k : Nat), imageFormatDepth E F = 8 * k →
      (∀ w h : Nat, w * h * (8 * k) < 2 ^ 64 → imageFormatSize E F w h = w * h * k) ∧
      (∀ w h : Nat, 2 ^ 64 ≤ w * h * (8 * k) → imageFormatSize E F w h < w * h * k) := by
    intro F k hk
    have hx : ∀ w h : Nat, w * h * (8 * k) = 8 * (w * h * k) := fun w h => by
      rw [Nat.mul_left_comm]
    constructor
    · intro w h hlt
      rw [imageFormatSize_eq_mod, hk, hx] at *
      generalize w * h * k = q at hlt ⊢
      omega
    · intro w h hge
      rw [imageFormatSize_eq_mod, hk]
      rw [hx] at hge ⊢
      generalize w * h * k = q at hge ⊢
      omega
  cases T
  · exact ⟨d1, c1, key _ _ d1⟩
  · exact ⟨d2, c2, key _ _ d2⟩
  · exact ⟨d3, c3, key _ _ d3⟩
  · exact ⟨d4, c4, key _ _ d4⟩

theorem imageFormatFromType_consistent_witness :
    specEnum.WellFormed ∧
      imageFormatDepth specEnum (imageFormatFromType specEnum SampleType.float4) =
        8 * SampleType.float4.sizeofSample ∧
      imageFormatChannels specEnum (imageFormatFromType specEnum SampleType.float4) =
        SampleType.float4.components ∧
      imageFormatSize specEnum (imageFormatFromType specEnum SampleType.float4) 640 480 =
        640 * 480 * SampleType.float4.sizeofSample :=
  ⟨specEnum_wellFormed,
    (imageFormatFromType_consistent specEnum_wellFormed SampleType.float4).1,
    (imageFormatFromType_consistent specEnum_wellFormed SampleType.float4).2.1,
    (imageFormatFromType_consistent specEnum_wellFormed SampleType.float4).2.2.1 640 480
      (by decide)⟩

end ImageFormat
